import Mathlib

/-!
Verification development for the `nfrrconfig` configuration-value library
(`BasicConfigValue` and its numeric conversion engine), shallowly embedded
from the C++ sources:

  * `include/nfrrconfig/impl/enums.hpp`      — `ConfigValueKind`, `ConfigError`
  * `include/nfrrconfig/impl/traits.hpp`     — the variant storage layout
  * `include/nfrrconfig/impl/basic_config_value.hpp`
  * `nfrrconfig/impl/config_details.hpp`     — `numeric_from_int64`,
    `numeric_from_double`, `numeric_from_bool`, `parse_numeric`
  * `nfrrconfig/impl/bcv_impl.hpp`           — `get_impl`, `get`, `try_get`,
    `get_to`, `coerce`, `operator[]`, `at`, `find`

Modelling conventions:

  * A C++ `double` is modelled as `DoubleVal`: a finite rational, `+inf`,
    `-inf`, or `nan`.  Every finite IEEE-754 double is a rational, and all
    comparisons/`trunc` performed by the code on finite doubles are exact
    rational operations, so the model is faithful on the operations the
    code performs.  Rounding of `static_cast` from wide integers to
    floating types is modelled as the exact rational (the code comments
    themselves accept precision loss there); no verified claim observes
    that rounding.
  * Mutating member functions become state-transition functions
    `ConfigValue → args → ConfigValue`.  Member functions that perform no
    store to `storage_` (`get`, `try_get`, `get_to`, `coerce`, `at`,
    `contains`, `find`) are embedded as pure functions, which is exactly
    what the source does: their bodies contain no assignment to the
    receiver.
  * Throwing functions return `Option` (`none` = the C++ `throw`);
    `try_get` returns `Except ConfigError` mirroring `std::expected`.
  * The template parameter `T` of the accessor family is reified as the
    inductive `Target` below, covering every instantiation class the
    template dispatches on (`bool`, each fixed-width integral type, each
    floating type, `String`, `Array`, `Object`).
-/

/-- The high-level kind of a stored value (`enums.hpp`, `ConfigValueKind`). -/
inductive ConfigValueKind where
  | Null | Boolean | Integer | Floating | String | Array | Object
deriving DecidableEq, Repr

/-- Error codes used by the safe accessors (`enums.hpp`, `ConfigError`). -/
inductive ConfigError where
  | None | TypeMismatch | OutOfRange | FractionalLoss | ParseError | KeyNotFound
deriving DecidableEq, Repr

/-- Model of a C++ `double`: a finite value (an exact rational, since every
finite IEEE-754 double is a rational) or one of the special values. -/
inductive DoubleVal where
  | finite (q : ℚ)
  | posInf
  | negInf
  | nan
deriving DecidableEq, Repr

/-- Models `std::isfinite` on a double. -/
def DoubleVal.isFinite : DoubleVal → Bool
  | .finite _ => true
  | _ => false

/-- Truncation toward zero of a rational, as performed by `std::trunc` on a
finite double: floor for nonnegative values, ceiling for negative ones. -/
def dtrunc (q : ℚ) : ℤ :=
  if 0 ≤ q then ⌊q⌋ else ⌈q⌉

/-- `std::trunc` lifted to `DoubleVal` (`trunc` maps each special value to
itself). -/
def DoubleVal.dtruncD : DoubleVal → DoubleVal
  | .finite q => .finite (dtrunc q)
  | d => d

/-- The fixed-width integral target types the accessor templates are
instantiated at (everything `std::is_integral_v` accepts except `bool`,
which both `numeric_from_int64` and the C++ type-trait chain treat
separately). -/
inductive IntTy where
  | i8 | i16 | i32 | i64 | u8 | u16 | u32 | u64
deriving DecidableEq, Repr

/-- `std::numeric_limits<T>::min()` as a mathematical integer. -/
def tmin : IntTy → ℤ
  | .i8  => -128
  | .i16 => -32768
  | .i32 => -2147483648
  | .i64 => -9223372036854775808
  | _    => 0

/-- `std::numeric_limits<T>::max()` as a mathematical integer. -/
def tmax : IntTy → ℤ
  | .i8  => 127
  | .i16 => 32767
  | .i32 => 2147483647
  | .i64 => 9223372036854775807
  | .u8  => 255
  | .u16 => 65535
  | .u32 => 4294967295
  | .u64 => 18446744073709551615

/-- Whether `T` is a signed integral type. -/
def IntTy.isSigned : IntTy → Bool
  | .i8 | .i16 | .i32 | .i64 => true
  | _ => false

/-- Whether `T` is strictly narrower than the 64-bit storage type. -/
def IntTy.isNarrow : IntTy → Bool
  | .i64 | .u64 => false
  | _ => true

/-- `static_cast<double>(std::numeric_limits<T>::min())`.  Exact for every
type: the signed minima are negated powers of two and the unsigned minima
are zero, all representable in a double. -/
def dblMin (t : IntTy) : ℚ := (tmin t : ℚ)

/-- `static_cast<double>(std::numeric_limits<T>::max())`.  Exact for every
type of at most 32 bits; `INT64_MAX = 2^63 - 1` rounds to the nearest
double `2^63`, and `UINT64_MAX = 2^64 - 1` rounds to `2^64`. -/
def dblMax : IntTy → ℚ
  | .i64 => 9223372036854775808
  | .u64 => 18446744073709551616
  | t => (tmax t : ℚ)

/-- The floating-point target types. -/
inductive FloatTy where
  | f32 | f64
deriving DecidableEq, Repr

/-- `std::numeric_limits<T>::max()` for a floating target, as an exact
rational: `(2^24 - 1)·2^104` for `float`, `(2^53 - 1)·2^971` for
`double`. -/
def fMax : FloatTy → ℚ
  | .f32 => (2 ^ 24 - 1) * 2 ^ 104
  | .f64 => (2 ^ 53 - 1) * 2 ^ 971

/-- `std::numeric_limits<T>::lowest()` for a floating target (IEEE formats
are sign-symmetric). -/
def fLowest (f : FloatTy) : ℚ := -(fMax f)

/-- The arithmetic instantiation classes of `config_detail::Arithmetic`. -/
inductive ArithTy where
  | abool
  | aint (t : IntTy)
  | afloat (f : FloatTy)
deriving DecidableEq, Repr

/-- The configuration value: the variant storage of `traits.hpp`
(`monostate`, `bool`, `int64_t`, `double`, string, array, object), with the
object an insertion-ordered list of key/value pairs exactly as in the
source (`std::vector<std::pair<String, value>>`). -/
inductive ConfigValue where
  | null
  | boolean (b : Bool)
  | integer (n : ℤ)
  | floating (d : DoubleVal)
  | string (s : String)
  | array (xs : List ConfigValue)
  | object (entries : List (String × ConfigValue))

/-- `BasicConfigValue::kind()`: the switch over the variant index. -/
def ConfigValue.kind : ConfigValue → ConfigValueKind
  | .null => .Null
  | .boolean _ => .Boolean
  | .integer _ => .Integer
  | .floating _ => .Floating
  | .string _ => .String
  | .array _ => .Array
  | .object _ => .Object

/-- `BasicConfigValue::is_object()`. -/
def ConfigValue.is_object (v : ConfigValue) : Bool :=
  v.kind == ConfigValueKind.Object

/-- `BasicConfigValue::is_string()`. -/
def ConfigValue.is_string (v : ConfigValue) : Bool :=
  v.kind == ConfigValueKind.String

/-- The result of a value-returning accessor instantiation: one constructor
per C++ result type class. -/
inductive TVal where
  | vb (b : Bool)
  | vi (n : ℤ)
  | vf (d : DoubleVal)
  | vs (s : String)
  | va (xs : List ConfigValue)
  | vo (entries : List (String × ConfigValue))

/-- `config_detail::numeric_from_int64<T>` (`config_details.hpp`).  For a
bool target, `value != 0`; for a floating target, `static_cast<T>(value)`
(always succeeds; modelled as the exact rational); for an integral target,
the bounds check of the source — the signed branch compares against
`(int64)Limits::min()/max()` and the unsigned branch checks `value < 0 ||
(uint64)value > Limits::max()`, both of which coincide with
`value < tmin ∨ value > tmax`. -/
def numeric_from_int64 (a : ArithTy) (value : ℤ) : Except ConfigError TVal :=
  match a with
  | .abool => .ok (.vb (value != 0))
  | .afloat _ => .ok (.vf (.finite (value : ℚ)))
  | .aint t =>
    if value < tmin t ∨ value > tmax t then .error .OutOfRange
    else .ok (.vi value)

/-- `config_detail::numeric_from_double<T>` (`config_details.hpp`).
Non-finite input fails the `std::isfinite` guard with `OutOfRange`.  A
floating target checks the value against `(double)Limits::lowest()/max()`.
Any other arithmetic target (the integral branch, which in C++ also
receives `bool`) computes `truncated = std::trunc(value)`, fails with
`FractionalLoss` when `truncated != value`, then bounds-checks `truncated`
against `(double)Limits::min()` and `(double)Limits::max()` — note the
latter are the double-rounded limits `dblMin`/`dblMax`, not the exact
integer limits — and finally returns `static_cast<T>(truncated)` (for a
bool target the in-bounds values are exactly 0 and 1; for an int target
the cast is the identity on every value the check admits except the
rounded 64-bit boundary, where the C++ cast is undefined behaviour and
the model returns the mathematical truncation). -/
def numeric_from_double (a : ArithTy) (value : DoubleVal) : Except ConfigError TVal :=
  match value with
  | .finite q =>
    match a with
    | .afloat f =>
      if q < fLowest f ∨ q > fMax f then .error .OutOfRange
      else .ok (.vf (.finite q))
    | .abool =>
      let truncated : ℤ := dtrunc q
      if (truncated : ℚ) ≠ q then .error .FractionalLoss
      else if (truncated : ℚ) < 0 ∨ (truncated : ℚ) > 1 then .error .OutOfRange
      else .ok (.vb (truncated == 1))
    | .aint t =>
      let truncated : ℤ := dtrunc q
      if (truncated : ℚ) ≠ q then .error .FractionalLoss
      else if (truncated : ℚ) < dblMin t ∨ (truncated : ℚ) > dblMax t then
        .error .OutOfRange
      else .ok (.vi truncated)
  | _ => .error .OutOfRange

/-- `config_detail::numeric_from_bool<T>` (`config_details.hpp`): identity
for bool, 0/1 for integral targets, 0.0/1.0 for floating targets; always
succeeds. -/
def numeric_from_bool (a : ArithTy) (value : Bool) : Except ConfigError TVal :=
  match a with
  | .abool => .ok (.vb value)
  | .aint _ => .ok (.vi (if value then 1 else 0))
  | .afloat _ => .ok (.vf (.finite (if value then 1 else 0)))

/-- Value of a list of decimal digit characters, most significant first. -/
def decimalVal (cs : List Char) : ℕ :=
  cs.foldl (fun acc c => acc * 10 + (c.toNat - 48)) 0

/-- Digit-run parser: a nonempty all-digit character list and its value. -/
def digitsVal : List Char → Option ℕ
  | [] => none
  | cs => if cs.all Char.isDigit then some (decimalVal cs) else none

/-- The integer branch of `std::from_chars(first, last, result, 10)` as the
repo uses it: since `parse_numeric` additionally demands `ptr == last`,
acceptance is equivalent to the whole input matching an optional minus sign
(signed targets only; `from_chars` never accepts `+`) followed by one or
more decimal digits.  Returns the unbounded integer value; the caller
performs the range check that `from_chars` reports as
`errc::result_out_of_range`. -/
def parseIntChars (sgn : Bool) : List Char → Option ℤ
  | '-' :: rest =>
    if sgn then (digitsVal rest).map (fun n => -(n : ℤ)) else none
  | cs => (digitsVal cs).map (fun n => (n : ℤ))

/-- The floating branch of `std::from_chars` (`chars_format::general`), again
under the repo's `ptr == last` requirement: optional minus sign, a decimal
significand with at least one digit (digits, optionally a point and more
digits, or a point and digits), and an optional `e`/`E` exponent with
optional sign.  The value is modelled as the exact rational; rounding to
the nearest double and the `inf`/`nan` literal forms are not modelled (no
verified claim observes them). -/
def parseFloatChars (cs0 : List Char) : Option ℚ :=
  let (neg, cs1) :=
    match cs0 with
    | '-' :: rest => (true, rest)
    | _ => (false, cs0)
  let ip := cs1.takeWhile Char.isDigit
  let cs2 := cs1.drop ip.length
  let (fp, cs3) :=
    match cs2 with
    | '.' :: rest =>
      let fpart := rest.takeWhile Char.isDigit
      (fpart, rest.drop fpart.length)
    | _ => ([], cs2)
  if ip.isEmpty ∧ fp.isEmpty then none
  else
    let mag : ℚ :=
      ((decimalVal ip * 10 ^ fp.length + decimalVal fp : ℕ) : ℚ) / ((10 ^ fp.length : ℕ) : ℚ)
    let base : ℚ := if neg then -mag else mag
    match cs3 with
    | [] => some base
    | c :: rest =>
      if c == 'e' ∨ c == 'E' then
        let (eneg, rest2) :=
          match rest with
          | '-' :: r => (true, r)
          | '+' :: r => (false, r)
          | _ => (false, rest)
        if rest2.isEmpty ∨ ¬ rest2.all Char.isDigit then none
        else
          let e : ℕ := decimalVal rest2
          some (if eneg then base / ((10 ^ e : ℕ) : ℚ) else base * ((10 ^ e : ℕ) : ℚ))
      else none

/-- `config_detail::parse_numeric<T>` (`config_details.hpp`): strict
whole-string `std::from_chars` parse.  Any malformed input, unconsumed
trailing character, or out-of-range value yields `ParseError` (the code
maps both `errc::invalid_argument` and `errc::result_out_of_range`, and a
`ptr != last` stop, to `ParseError`).  A `bool` target is unreachable:
`std::from_chars` on `bool` is ill-formed, so `coerce<bool>()` does not
compile in C++; it is modelled as `ParseError`. -/
def parse_numeric (a : ArithTy) (s : String) : Except ConfigError TVal :=
  match a with
  | .abool => .error .ParseError
  | .aint t =>
    match parseIntChars t.isSigned s.data with
    | none => .error .ParseError
    | some n =>
      if n < tmin t ∨ n > tmax t then .error .ParseError
      else .ok (.vi n)
  | .afloat f =>
    match parseFloatChars s.data with
    | none => .error .ParseError
    | some q =>
      if q < fLowest f ∨ q > fMax f then .error .ParseError
      else .ok (.vf (.finite q))

/-- The non-reference template arguments `T` of the accessor family, by the
classes the `if constexpr` chain of `get_impl` dispatches on. -/
inductive Target where
  | arith (a : ArithTy)
  | tstring
  | tarray
  | tobject
deriving DecidableEq, Repr

/-- `BasicConfigValue::get_impl<T>` (`bcv_impl.hpp`), value-access half
(`get`/`try_get`/`get_to` statically reject reference `T`, so only this
half is reachable from them): an arithmetic target converts from a stored
Integer/Floating/Boolean through the numeric conversion engine; a
String/Array/Object target requires the exact kind and returns a copy;
everything else is `TypeMismatch`. -/
def get_impl (t : Target) (v : ConfigValue) : Except ConfigError TVal :=
  match t with
  | .arith a =>
    match v with
    | .integer n => numeric_from_int64 a n
    | .floating d => numeric_from_double a d
    | .boolean b => numeric_from_bool a b
    | _ => .error .TypeMismatch
  | .tstring =>
    match v with
    | .string s => .ok (.vs s)
    | _ => .error .TypeMismatch
  | .tarray =>
    match v with
    | .array xs => .ok (.va xs)
    | _ => .error .TypeMismatch
  | .tobject =>
    match v with
    | .object o => .ok (.vo o)
    | _ => .error .TypeMismatch

/-- `BasicConfigValue::try_get<T>` (`bcv_impl.hpp`): exactly
`get_impl<T>(*this)`, returned as the `std::expected` — never throws. -/
def try_get (t : Target) (v : ConfigValue) : Except ConfigError TVal :=
  get_impl t v

/-- `BasicConfigValue::get<T>` (`bcv_impl.hpp`): `get_impl`, unwrapped;
an error becomes a thrown `std::runtime_error`, modelled as `none`. -/
def BasicConfigValue.get (t : Target) (v : ConfigValue) : Option TVal :=
  match get_impl t v with
  | .ok r => some r
  | .error _ => none

/-- `BasicConfigValue::get_to(out)` (`bcv_impl.hpp`): runs `try_get`; on
success assigns the result to `out`, on error throws and leaves `out`
untouched.  Modelled as the pair (final value of `out`, whether it
succeeded). -/
def get_to (t : Target) (v : ConfigValue) (out : TVal) : TVal × Bool :=
  match try_get t v with
  | .ok r => (r, true)
  | .error _ => (out, false)

/-- `BasicConfigValue::coerce<T>` (`bcv_impl.hpp`): first the normal
`get_impl` path; if that fails, `T` arithmetic and the stored kind String,
parse the string's full contents with `parse_numeric` (a parse failure
throws); any other failure throws.  Throws are modelled as `none`. -/
def coerce (t : Target) (v : ConfigValue) : Option TVal :=
  match get_impl t v with
  | .ok r => some r
  | .error _ =>
    match t, v with
    | .arith a, .string s =>
      match parse_numeric a s with
      | .ok r => some r
      | .error _ => none
    | _, _ => none

/-- `BasicConfigValue::set_bool` — unconditional kind transition. -/
def set_bool (v : ConfigValue) (b : Bool) : ConfigValue :=
  .boolean b

/-- `BasicConfigValue::set_integer` — unconditional kind transition. -/
def set_integer (v : ConfigValue) (n : ℤ) : ConfigValue :=
  .integer n

/-- `BasicConfigValue::set_floating` — unconditional kind transition. -/
def set_floating (v : ConfigValue) (d : DoubleVal) : ConfigValue :=
  .floating d

/-- `BasicConfigValue::set_string` — unconditional kind transition (the
allocator rebind only chooses where the copy lives). -/
def set_string (v : ConfigValue) (s : String) : ConfigValue :=
  .string s

/-- `BasicConfigValue::set_object` — transition to an empty object. -/
def set_object (v : ConfigValue) : ConfigValue :=
  .object []

/-- `BasicConfigValue::assign(bool)`. -/
def assign_bool (v : ConfigValue) (b : Bool) : ConfigValue :=
  set_bool v b

/-- The integral `assign` overload at source type `int64_t`:
`set_integer(static_cast<int64_t>(value))`, where the cast is the
identity. -/
def assign_int64 (v : ConfigValue) (n : ℤ) : ConfigValue :=
  set_integer v n

/-- `static_cast<std::int64_t>` applied to a `uint64_t` value: since C++20
the result is the unique value congruent modulo `2^64` that fits in
`int64_t`. -/
def int64_of_uint64 (u : ℕ) : ℤ :=
  let r : ℕ := u % 2 ^ 64
  if r < 2 ^ 63 then (r : ℤ) else (r : ℤ) - 2 ^ 64

/-- The integral `assign` overload at source type `uint64_t`:
`set_integer(static_cast<int64_t>(value))`. -/
def assign_uint64 (v : ConfigValue) (u : ℕ) : ConfigValue :=
  set_integer v (int64_of_uint64 u)

/-- The floating `assign` overload at source type `double`:
`set_floating(static_cast<double>(value))`, an identity cast. -/
def assign_double (v : ConfigValue) (d : DoubleVal) : ConfigValue :=
  set_floating v d

/-- The string-like `assign` overloads: `set_string(sv)`. -/
def assign_string (v : ConfigValue) (s : String) : ConfigValue :=
  set_string v s

/-- `BasicConfigValue::ensure_object` (`basic_config_value.hpp`): call
`set_object()` unless already an object; the returned reference is the
(possibly fresh) object payload of the resulting state. -/
def ensure_object (v : ConfigValue) : ConfigValue :=
  if v.is_object then v else set_object v

/-- The object payload (`as_object`).  Precondition in the source:
`kind() == Object`; every call site below reaches it only after that
holds, the `[]` default is never observed. -/
def as_object : ConfigValue → List (String × ConfigValue)
  | .object o => o
  | _ => []

/-- `find_in_object` (`basic_config_value.hpp`): `std::find_if` by exact
key equality, returned as the index of the first match (`none` plays the
role of the `end()` iterator). -/
def findEntry : List (String × ConfigValue) → String → Option ℕ
  | [], _ => none
  | kv :: rest, key =>
    if kv.fst == key then some 0 else (findEntry rest key).map (· + 1)

/-- `BasicConfigValue::contains` (`basic_config_value.hpp`): false unless
an object; otherwise whether the linear scan finds the key. -/
def contains (v : ConfigValue) (key : String) : Bool :=
  match v with
  | .object o => (findEntry o key).isSome
  | _ => false

/-- Dereference of the iterator returned by `find_in_object`. -/
def lookupEntry (o : List (String × ConfigValue)) (key : String) :
    Option (String × ConfigValue) :=
  match findEntry o key with
  | some i => o[i]?
  | none => none

/-- `BasicConfigValue::at` (`bcv_impl.hpp`): throws (`none`) when the value
is not an object or the linear scan hits `end()`; otherwise the entry's
value (`it->second`).  The function performs no mutation — it never
changes the receiver's kind and never inserts — hence its embedding as a
pure read; contrast `opIndex`. -/
def atKey (v : ConfigValue) (key : String) : Option ConfigValue :=
  match v with
  | .object o => (lookupEntry o key).map Prod.snd
  | _ => none

/-- `BasicConfigValue::operator[]` (`bcv_impl.hpp`): `ensure_object()`,
then the linear scan; a hit returns the existing entry, a miss appends
`(key, null-value)` with `emplace_back` and returns `obj.back()`.  The
result is the new state paired with the index of the referenced entry. -/
def opIndex (v : ConfigValue) (key : String) : ConfigValue × ℕ :=
  let o := as_object (ensure_object v)
  match findEntry o key with
  | some i => (.object o, i)
  | none => (.object (o ++ [(key, .null)]), o.length)

/-- Replace the value component of the entry at an index, keeping its key:
the effect on the object of assigning through the reference
`operator[]` returned. -/
def setEntryValue :
    List (String × ConfigValue) → ℕ → ConfigValue → List (String × ConfigValue)
  | [], _, _ => []
  | (k, _) :: rest, 0, x => (k, x) :: rest
  | kv :: rest, n + 1, x => kv :: setEntryValue rest n x

/-- The compound statement `v[key].assign(x)`: `operator[]` followed by an
`assign` through the returned reference. -/
def opIndexAssign (v : ConfigValue) (key : String) (x : ConfigValue) : ConfigValue :=
  let p := opIndex v key
  match p.1 with
  | .object o => .object (setEntryValue o p.2 x)
  | w => w


/-! Helper lemmas (shared; not claim theorems). -/

/-- Truncation of an integer-valued rational is that integer. -/
lemma dtrunc_intCast (n : ℤ) : dtrunc ((n : ℚ)) = n := by
  unfold dtrunc
  split <;> simp

/-- A successful linear scan hits an index inside the list. -/
lemma findEntry_lt_length {o : List (String × ConfigValue)} {k : String} {i : ℕ}
    (h : findEntry o k = some i) : i < o.length := by
  induction o generalizing i with
  | nil => simp [findEntry] at h
  | cons kv rest ih =>
    simp only [findEntry] at h
    by_cases hb : (kv.fst == k) = true
    · rw [if_pos hb] at h
      obtain rfl : (0 : ℕ) = i := Option.some.inj h
      simp
    · rw [if_neg hb] at h
      obtain ⟨j, hj, rfl⟩ := Option.map_eq_some'.mp h
      have := ih hj
      simp only [List.length_cons]
      omega

/-- The entry a successful linear scan returns carries the searched key. -/
lemma findEntry_key {o : List (String × ConfigValue)} {k : String} {i : ℕ}
    (h : findEntry o k = some i) : ∃ w, o[i]? = some (k, w) := by
  induction o generalizing i with
  | nil => simp [findEntry] at h
  | cons kv rest ih =>
    simp only [findEntry] at h
    by_cases hb : (kv.fst == k) = true
    · rw [if_pos hb] at h
      obtain rfl : (0 : ℕ) = i := Option.some.inj h
      refine ⟨kv.snd, ?_⟩
      have hk : kv.fst = k := eq_of_beq hb
      cases kv
      simp_all
    · rw [if_neg hb] at h
      obtain ⟨j, hj, rfl⟩ := Option.map_eq_some'.mp h
      obtain ⟨w, hw⟩ := ih hj
      exact ⟨w, by simpa using hw⟩

/-- C4: for every double d with `trunc(d) != d` stored as the Floating
payload, `try_get` with any integral target yields `FractionalLoss`.
(Special values are excluded by the hypothesis itself: `trunc` fixes
`±inf` and `nan`, and a finite value with `trunc(d) != d` reaches the
`FractionalLoss` branch right after passing the `isfinite` guard.) -/
theorem try_get_fractional_law (d : DoubleVal) (t : IntTy)
    (h : d.dtruncD ≠ d) :
    try_get (.arith (.aint t)) (.floating d) = .error .FractionalLoss := by
  cases d with
  | finite q =>
    have hne : ((dtrunc q : ℤ) : ℚ) ≠ q := by
      intro he
      exact h (by simp only [DoubleVal.dtruncD, he])
    simp only [try_get, get_impl, numeric_from_double]
    rw [if_pos hne]
  | posInf => exact absurd rfl h
  | negInf => exact absurd rfl h
  | nan => exact absurd rfl h

/-- Witness for `try_get_fractional_law` at d = 3.5, T = int32. -/
theorem try_get_fractional_law_witness :
    DoubleVal.dtruncD (.finite (7 / 2)) ≠ .finite (7 / 2) ∧
    try_get (.arith (.aint .i32)) (.floating (.finite (7 / 2)))
      = .error .FractionalLoss := by
  have h1 : dtrunc (7 / 2 : ℚ) = 3 := by
    unfold dtrunc
    rw [if_pos (by norm_num), Int.floor_eq_iff]
    norm_num
  have h : DoubleVal.dtruncD (.finite (7 / 2)) ≠ .finite (7 / 2) := by
    simp only [DoubleVal.dtruncD, h1]
    intro he
    rw [DoubleVal.finite.injEq] at he
    norm_num at he
  exact ⟨h, try_get_fractional_law _ _ h⟩

/-- C3 (failing input): the integral branch of `numeric_from_double`
bounds-checks `truncated` against `static_cast<double>(INT64_MAX)`, which
rounds up to `2^63`; the representable double `2^63` therefore passes the
check and escapes to the `static_cast` (undefined behaviour in C++)
instead of yielding `OutOfRange`, even though `2^63` exceeds
`INT64_MAX`. -/
theorem numeric_from_double_int64_boundary :
    numeric_from_double (.aint .i64) (.finite ((2 : ℚ) ^ 63))
      = .ok (.vi (2 ^ 63)) ∧ tmax .i64 < 2 ^ 63 := by
  have hq : ((2 : ℚ) ^ 63) = (((2 ^ 63 : ℤ) : ℚ)) := by norm_num
  have ht : dtrunc ((2 : ℚ) ^ 63) = 2 ^ 63 := by rw [hq, dtrunc_intCast]
  constructor
  · simp only [numeric_from_double, ht]
    rw [if_neg (by push_cast; norm_num), if_neg (by norm_num [dblMin, dblMax, tmin])]
  · norm_num [tmax]

/-- C9: a failed conversion leaves `get_to`'s output variable unchanged
(the write happens only after `try_get` returns a value).  The remaining
operations of the claim (`get`, `try_get`, `coerce`, `at`, `find`,
`contains`) perform no store to the receiver in the source and are
accordingly embedded as pure functions of it. -/
theorem get_to_failure_frame (t : Target) (v : ConfigValue) (out : TVal)
    (h : (try_get t v).isOk = false) :
    get_to t v out = (out, false) := by
  cases hg : try_get t v with
  | ok r =>
    rw [hg] at h
    simp [Except.isOk, Except.toBool] at h
  | error e => simp [get_to, hg]

/-- Witness for `get_to_failure_frame`: a String request on a Null value. -/
theorem get_to_failure_frame_witness :
    (try_get .tstring .null).isOk = false ∧
    get_to .tstring .null (.vs "x") = (.vs "x", false) :=
  ⟨rfl, get_to_failure_frame .tstring .null (.vs "x") rfl⟩

/-- C8: the accessor family agrees: `get` succeeds with v exactly when
`try_get` returns v, and fails (throws) exactly when `try_get` returns an
error (`try_get` itself never fails loudly — it is total, returning the
value or the specific `ConfigError`); `get_to` has the same failure modes
and on success writes the same value `get` returns. -/
theorem accessor_family_agreement (t : Target) (v : ConfigValue) :
    (∀ r, BasicConfigValue.get t v = some r ↔ try_get t v = .ok r) ∧
    (BasicConfigValue.get t v = none ↔ ∃ e, try_get t v = .error e) ∧
    (∀ out r, try_get t v = .ok r → get_to t v out = (r, true)) ∧
    (∀ out e, try_get t v = .error e → get_to t v out = (out, false)) := by
  cases hg : get_impl t v with
  | ok r =>
    refine ⟨?_, ?_, ?_, ?_⟩ <;>
      simp [BasicConfigValue.get, try_get, get_to, hg]
  | error e =>
    refine ⟨?_, ?_, ?_, ?_⟩ <;>
      simp [BasicConfigValue.get, try_get, get_to, hg]

/-- Witness for `accessor_family_agreement`: int32 access to Integer 5. -/
theorem accessor_family_agreement_witness :
    try_get (.arith (.aint .i32)) (.integer 5) = .ok (.vi 5) ∧
    get_to (.arith (.aint .i32)) (.integer 5) (.vi 0) = (.vi 5, true) :=
  ⟨rfl, (accessor_family_agreement (.arith (.aint .i32)) (.integer 5)).2.2.1
    (.vi 0) (.vi 5) rfl⟩

/-- C10: assigning a `uint64` value u above `INT64_MAX` stores
`static_cast<int64_t>(u)` — u wrapped modulo 2^64, a negative number —
with kind Integer, and `try_get<uint64_t>()` then fails with `OutOfRange`
(the unsigned branch of `numeric_from_int64` rejects negatives) instead
of round-tripping u. -/
theorem assign_uint64_wraps (v : ConfigValue) (u : ℕ)
    (h₁ : u < 2 ^ 64) (h₂ : 2 ^ 63 - 1 < u) :
    int64_of_uint64 u = (u : ℤ) - 2 ^ 64 ∧
    int64_of_uint64 u < 0 ∧
    (assign_uint64 v u).kind = .Integer ∧
    try_get (.arith (.aint .u64)) (assign_uint64 v u) = .error .OutOfRange := by
  have hr : u % 2 ^ 64 = u := Nat.mod_eq_of_lt h₁
  have e64 : (2 : ℕ) ^ 64 = 18446744073709551616 := by norm_num
  have e63 : (2 : ℕ) ^ 63 = 9223372036854775808 := by norm_num
  have hwrap : int64_of_uint64 u = (u : ℤ) - 2 ^ 64 := by
    unfold int64_of_uint64
    rw [hr, if_neg (by omega)]
  have hneg : int64_of_uint64 u < 0 := by
    rw [hwrap]
    have hc : (u : ℤ) < 2 ^ 64 := by exact_mod_cast h₁
    omega
  refine ⟨hwrap, hneg, rfl, ?_⟩
  show numeric_from_int64 (.aint .u64) (int64_of_uint64 u) = .error .OutOfRange
  have htm : tmin .u64 = 0 := rfl
  simp only [numeric_from_int64]
  rw [if_pos (Or.inl (by rw [htm]; exact hneg))]

/-- Witness for `assign_uint64_wraps` at u = 2^63. -/
theorem assign_uint64_wraps_witness :
    (2 ^ 63 : ℕ) < 2 ^ 64 ∧ (2 ^ 63 - 1 : ℕ) < 2 ^ 63 ∧
    try_get (.arith (.aint .u64)) (assign_uint64 .null (2 ^ 63))
      = .error .OutOfRange :=
  ⟨by norm_num, by norm_num,
    (assign_uint64_wraps .null (2 ^ 63) (by norm_num) (by norm_num)).2.2.2⟩

/-- C1: scalar round trip — for each scalar kind, `assign(v)` followed by
the matching `get<K>()` returns v unchanged, on any receiver.  The Integer
source ranges over `int64_t` and the Floating source over finite doubles
(every finite double lies within `[lowest, max]`, the hypothesis the
model's rational superset of the doubles makes explicit). -/
theorem assign_get_round_trip
    (v : ConfigValue) (b : Bool) (n : ℤ) (q : ℚ) (s : String)
    (hn₁ : -(2 ^ 63) ≤ n) (hn₂ : n ≤ 2 ^ 63 - 1)
    (hq₁ : fLowest .f64 ≤ q) (hq₂ : q ≤ fMax .f64) :
    BasicConfigValue.get (.arith .abool) (assign_bool v b) = some (.vb b) ∧
    BasicConfigValue.get (.arith (.aint .i64)) (assign_int64 v n) = some (.vi n) ∧
    BasicConfigValue.get (.arith (.afloat .f64)) (assign_double v (.finite q))
      = some (.vf (.finite q)) ∧
    BasicConfigValue.get .tstring (assign_string v s) = some (.vs s) := by
  refine ⟨rfl, ?_, ?_, rfl⟩
  · have h63 : (2 : ℤ) ^ 63 = 9223372036854775808 := by norm_num
    rw [h63] at hn₁ hn₂
    have hcond : ¬ (n < tmin .i64 ∨ n > tmax .i64) := by
      have hm : tmin .i64 = -9223372036854775808 := rfl
      have hM : tmax .i64 = 9223372036854775807 := rfl
      rw [hm, hM]
      omega
    simp only [BasicConfigValue.get, assign_int64, set_integer, get_impl,
      numeric_from_int64]
    rw [if_neg hcond]
  · have hcond : ¬ (q < fLowest .f64 ∨ q > fMax .f64) := by
      push_neg
      exact ⟨hq₁, hq₂⟩
    simp only [BasicConfigValue.get, assign_double, set_floating, get_impl,
      numeric_from_double]
    rw [if_neg hcond]

/-- Witness for `assign_get_round_trip` at b = true, n = 42, q = 0,
s = "cfg". -/
theorem assign_get_round_trip_witness :
    (-(2 ^ 63) : ℤ) ≤ 42 ∧ (42 : ℤ) ≤ 2 ^ 63 - 1 ∧
    fLowest .f64 ≤ (0 : ℚ) ∧ (0 : ℚ) ≤ fMax .f64 ∧
    BasicConfigValue.get (.arith (.aint .i64)) (assign_int64 .null 42)
      = some (.vi 42) := by
  refine ⟨by norm_num, by norm_num, by norm_num [fLowest, fMax],
    by norm_num [fMax], ?_⟩
  exact (assign_get_round_trip .null true 42 0 "cfg" (by norm_num) (by norm_num)
    (by norm_num [fLowest, fMax]) (by norm_num [fMax])).2.1

/-- C2: range law — for a stored Integer n and a narrower integral target
T, `try_get<T>()` succeeds with n exactly when n lies within T's min/max
range, and otherwise yields `OutOfRange`. -/
theorem try_get_int_range_law (t : IntTy) (n : ℤ)
    (hnarrow : t.isNarrow = true)
    (hn₁ : -(2 ^ 63) ≤ n) (hn₂ : n ≤ 2 ^ 63 - 1) :
    (try_get (.arith (.aint t)) (.integer n) = .ok (.vi n)
      ↔ tmin t ≤ n ∧ n ≤ tmax t) ∧
    (¬ (tmin t ≤ n ∧ n ≤ tmax t) →
      try_get (.arith (.aint t)) (.integer n) = .error .OutOfRange) := by
  simp only [try_get, get_impl, numeric_from_int64]
  by_cases h : n < tmin t ∨ n > tmax t
  · rw [if_pos h]
    refine ⟨⟨fun hc => absurd hc (by simp), fun hio => ?_⟩, fun _ => rfl⟩
    rcases h with h | h
    · exact absurd hio.1 (not_le.mpr h)
    · exact absurd hio.2 (not_le.mpr h)
  · rw [if_neg h]
    push_neg at h
    exact ⟨iff_of_true rfl h, fun hc => absurd h hc⟩

/-- Witness for `try_get_int_range_law` at T = int8, n = 300. -/
theorem try_get_int_range_law_witness :
    IntTy.isNarrow .i8 = true ∧ (-(2 ^ 63) : ℤ) ≤ 300 ∧ (300 : ℤ) ≤ 2 ^ 63 - 1 ∧
    ¬ (tmin .i8 ≤ 300 ∧ (300 : ℤ) ≤ tmax .i8) ∧
    try_get (.arith (.aint .i8)) (.integer 300) = .error .OutOfRange := by
  have hm : tmin .i8 = -128 := rfl
  have hM : tmax .i8 = 127 := rfl
  refine ⟨rfl, by norm_num, by norm_num, by rw [hm, hM]; omega, ?_⟩
  exact (try_get_int_range_law .i8 300 rfl (by norm_num) (by norm_num)).2
    (by rw [hm, hM]; omega)

/-- C5: `operator[]` auto-vivification — the result state is always an
Object; a non-Object receiver becomes an Object holding exactly the new
Null entry; an Object receiver with the key present is returned
unchanged, the reference denoting the found entry; an Object receiver
without the key gains a Null-valued entry at the end; the referenced
entry always carries the requested key; and on a Null value,
`value["k"].assign(1)` yields an Object with the single entry "k" → 1. -/
theorem opIndex_auto_vivification (v : ConfigValue) (k : String) :
    ((opIndex v k).1.is_object = true) ∧
    (v.is_object = false → opIndex v k = (.object [(k, .null)], 0)) ∧
    (∀ o i, v = .object o → findEntry o k = some i → opIndex v k = (v, i)) ∧
    (∀ o, v = .object o → findEntry o k = none →
      opIndex v k = (.object (o ++ [(k, .null)]), o.length)) ∧
    (∀ o', (opIndex v k).1 = .object o' →
      ∃ w, o'[(opIndex v k).2]? = some (k, w)) ∧
    (opIndexAssign .null "k" (.integer 1) = .object [("k", .integer 1)]) := by
  cases v with
  | object o =>
    have hbase : as_object (ensure_object (.object o)) = o := rfl
    cases hf : findEntry o k with
    | some i =>
      have hred : opIndex (.object o) k = (.object o, i) := by
        simp only [opIndex, hbase, hf]
      refine ⟨by rw [hred]; rfl, ?_, ?_, ?_, ?_, rfl⟩
      · intro habs
        exact Bool.noConfusion habs
      · intro o₂ i₂ hv hf₂
        injection hv with he
        subst he
        rw [hf] at hf₂
        obtain rfl := Option.some.inj hf₂
        exact hred
      · intro o₂ hv hf₂
        injection hv with he
        subst he
        rw [hf] at hf₂
        exact Option.noConfusion hf₂
      · intro o' ho'
        rw [hred] at ho' ⊢
        injection ho' with he
        subst he
        exact findEntry_key hf
    | none =>
      have hred : opIndex (.object o) k = (.object (o ++ [(k, .null)]), o.length) := by
        simp only [opIndex, hbase, hf]
      refine ⟨by rw [hred]; rfl, ?_, ?_, ?_, ?_, rfl⟩
      · intro habs
        exact Bool.noConfusion habs
      · intro o₂ i₂ hv hf₂
        injection hv with he
        subst he
        rw [hf] at hf₂
        exact Option.noConfusion hf₂
      · intro o₂ hv hf₂
        injection hv with he
        subst he
        exact hred
      · intro o' ho'
        rw [hred] at ho' ⊢
        injection ho' with he
        subst he
        exact ⟨.null, List.getElem?_concat_length o (k, .null)⟩
  | null =>
    refine ⟨rfl, fun _ => rfl, ?_, ?_, ?_, rfl⟩
    · intro o i hv
      exact ConfigValue.noConfusion hv
    · intro o hv
      exact ConfigValue.noConfusion hv
    · intro o' ho'
      injection ho' with he
      subst he
      exact ⟨.null, rfl⟩
  | boolean b =>
    refine ⟨rfl, fun _ => rfl, ?_, ?_, ?_, rfl⟩
    · intro o i hv
      exact ConfigValue.noConfusion hv
    · intro o hv
      exact ConfigValue.noConfusion hv
    · intro o' ho'
      injection ho' with he
      subst he
      exact ⟨.null, rfl⟩
  | integer n =>
    refine ⟨rfl, fun _ => rfl, ?_, ?_, ?_, rfl⟩
    · intro o i hv
      exact ConfigValue.noConfusion hv
    · intro o hv
      exact ConfigValue.noConfusion hv
    · intro o' ho'
      injection ho' with he
      subst he
      exact ⟨.null, rfl⟩
  | floating d =>
    refine ⟨rfl, fun _ => rfl, ?_, ?_, ?_, rfl⟩
    · intro o i hv
      exact ConfigValue.noConfusion hv
    · intro o hv
      exact ConfigValue.noConfusion hv
    · intro o' ho'
      injection ho' with he
      subst he
      exact ⟨.null, rfl⟩
  | string s =>
    refine ⟨rfl, fun _ => rfl, ?_, ?_, ?_, rfl⟩
    · intro o i hv
      exact ConfigValue.noConfusion hv
    · intro o hv
      exact ConfigValue.noConfusion hv
    · intro o' ho'
      injection ho' with he
      subst he
      exact ⟨.null, rfl⟩
  | array xs =>
    refine ⟨rfl, fun _ => rfl, ?_, ?_, ?_, rfl⟩
    · intro o i hv
      exact ConfigValue.noConfusion hv
    · intro o hv
      exact ConfigValue.noConfusion hv
    · intro o' ho'
      injection ho' with he
      subst he
      exact ⟨.null, rfl⟩

/-- Witness for `opIndex_auto_vivification`: indexing a Null value. -/
theorem opIndex_auto_vivification_witness :
    ConfigValue.is_object .null = false ∧
    opIndex .null "a" = (.object [("a", .null)], 0) :=
  ⟨rfl, (opIndex_auto_vivification .null "a").2.1 rfl⟩

/-- C6: `coerce<T>()` — the normal converting path is attempted first and
its success returned as-is; when it fails on a String-kind value with an
arithmetic target, the string's full contents go through `parse_numeric`
and that parse's result decides the outcome.  Concretely, string "123"
coerces to int 123, string "3.5" to double 3.5, string "not-a-number"
fails for int, and a parse not consuming the entire string ("123x")
fails. -/
theorem coerce_string_numeric (t : Target) (v : ConfigValue) :
    (∀ r, get_impl t v = .ok r → coerce t v = some r) ∧
    (∀ a s r, parse_numeric a s = .ok r → coerce (.arith a) (.string s) = some r) ∧
    (∀ a s e, parse_numeric a s = .error e → coerce (.arith a) (.string s) = none) ∧
    coerce (.arith (.aint .i32)) (.string "123") = some (.vi 123) ∧
    coerce (.arith (.afloat .f64)) (.string "3.5") = some (.vf (.finite (7 / 2))) ∧
    coerce (.arith (.aint .i32)) (.string "not-a-number") = none ∧
    coerce (.arith (.aint .i32)) (.string "123x") = none := by
  have hp : parseFloatChars "3.5".data
      = some (((35 : ℕ) : ℚ) / ((10 ^ 1 : ℕ) : ℚ)) := rfl
  have hp35 : parseFloatChars "3.5".data = some (7 / 2 : ℚ) := by
    rw [hp]
    norm_num
  have hpn : parse_numeric (.afloat .f64) "3.5" = .ok (.vf (.finite (7 / 2))) := by
    simp only [parse_numeric, hp35]
    rw [if_neg (by norm_num [fLowest, fMax])]
  refine ⟨?_, ?_, ?_, rfl, ?_, rfl, rfl⟩
  · intro r h
    simp [coerce, h]
  · intro a s r h
    have hgi : get_impl (.arith a) (.string s) = .error .TypeMismatch := rfl
    simp [coerce, hgi, h]
  · intro a s e h
    have hgi : get_impl (.arith a) (.string s) = .error .TypeMismatch := rfl
    simp [coerce, hgi, h]
  · have hgi : get_impl (.arith (.afloat .f64)) (.string "3.5")
        = .error .TypeMismatch := rfl
    simp [coerce, hgi, hpn]

/-- Witness for `coerce_string_numeric`: the normal converting path on a
Boolean value. -/
theorem coerce_string_numeric_witness :
    get_impl (.arith .abool) (.boolean true) = .ok (.vb true) ∧
    coerce (.arith .abool) (.boolean true) = some (.vb true) :=
  ⟨rfl, (coerce_string_numeric (.arith .abool) (.boolean true)).1 (.vb true) rfl⟩

/-- C7: `at(key)` fails exactly when the value is not an Object or the key
is absent (its success is precisely `contains`), and on success returns
the value of the entry for the key found by the linear scan.  `at`
performs no mutation in the source — it never changes the receiver's kind
and never inserts — hence its embedding as a pure read. -/
theorem at_checked_access (v : ConfigValue) (k : String) :
    ((atKey v k).isSome = contains v k) ∧
    (v.is_object = false → atKey v k = none) ∧
    (∀ o i, v = .object o → findEntry o k = some i →
      ∃ w, o[i]? = some (k, w) ∧ atKey v k = some w) := by
  cases v with
  | object o =>
    refine ⟨?_, ?_, ?_⟩
    · cases hf : findEntry o k with
      | some i =>
        obtain ⟨w, hw⟩ := findEntry_key hf
        simp [atKey, contains, lookupEntry, hf, hw]
      | none => simp [atKey, contains, lookupEntry, hf]
    · intro habs
      exact Bool.noConfusion habs
    · intro o₂ i hv hf
      injection hv with he
      subst he
      obtain ⟨w, hw⟩ := findEntry_key hf
      refine ⟨w, hw, ?_⟩
      simp [atKey, lookupEntry, hf, hw]
  | null =>
    exact ⟨rfl, fun _ => rfl, fun o i hv hf => ConfigValue.noConfusion hv⟩
  | boolean b =>
    exact ⟨rfl, fun _ => rfl, fun o i hv hf => ConfigValue.noConfusion hv⟩
  | integer n =>
    exact ⟨rfl, fun _ => rfl, fun o i hv hf => ConfigValue.noConfusion hv⟩
  | floating d =>
    exact ⟨rfl, fun _ => rfl, fun o i hv hf => ConfigValue.noConfusion hv⟩
  | string s =>
    exact ⟨rfl, fun _ => rfl, fun o i hv hf => ConfigValue.noConfusion hv⟩
  | array xs =>
    exact ⟨rfl, fun _ => rfl, fun o i hv hf => ConfigValue.noConfusion hv⟩

/-- Witness for `at_checked_access`: `at` on a non-Object receiver. -/
theorem at_checked_access_witness :
    ConfigValue.is_object (.integer 3) = false ∧ atKey (.integer 3) "a" = none :=
  ⟨rfl, (at_checked_access (.integer 3) "a").2.1 rfl⟩
